import Mathlib

/-!
# Verification of the Agent Coordination Core

A shallow embedding of the coordination core of the personal-agent-os
repository (message bus, planner, plan validator, risk engine, executor,
verifier, state manager, reminder monitor), together with proofs about the
embedded operations.

Conventions of the embedding:
* Python UUIDs are modelled as `Nat` identifiers.
* Python `datetime` values are modelled as `Int` instants; `None`-able
  datetimes and parse failures (`datetime.fromisoformat` raising
  `ValueError`) are modelled with `Option`.
* Python floats (risk scores) are modelled as `Rat`; every comparison the
  code performs on them (`>= 0.8`, `>= 0.4`, `> 0.95`) has the same outcome
  on the rational values as on the IEEE doubles.
* Python dicts keyed by id are modelled as association lists with
  last-write-wins update, mirroring insertion-order semantics.
* Raised exceptions are modelled with `Except String`; a function that the
  source guarantees to return normally has a plain (non-`Except`) result
  type, which makes totality visible in the type.
* Fields not consulted by any operation proved about (timestamps,
  free-text payload maps) are omitted from the structures.
-/

namespace AgenticOS

/-! ## Data model (`coordination/messages.py`) -/

/-- `MessageType` enumeration from `coordination/messages.py`. -/
inductive MessageType
  | plan_request | plan_response | execute_request | execute_response
  | verify_request | verify_response
  | tool_call | tool_result | tool_error
  | agent_ready | agent_busy | cancel_request | heartbeat
  | context_update | state_sync
  | request_failed | recoverable_error | critical_error
deriving DecidableEq, Repr

/-- `MessageStatus` enumeration from `coordination/messages.py`. -/
inductive MessageStatus
  | sent | delivered | processing | completed | failed | timeout | cancelled
deriving DecidableEq, Repr

/-- `Message` envelope (`coordination/messages.py`); payload and timestamps
are not consulted by the routed operations proved below and are omitted. -/
structure Message where
  id : Nat
  message_type : MessageType
  sender : String
  recipient : String
  status : MessageStatus := .sent
  correlation_id : Option Nat := none
  parent_message_id : Option Nat := none
  error : Option String := none
deriving DecidableEq, Repr

/-- `PlanStep` (`coordination/messages.py`): a single tool invocation.
`tool_args` is an opaque string map. -/
structure PlanStep where
  id : Nat
  order : Int
  description : String
  tool_name : String
  tool_args : List (String × String) := []
  depends_on : List Nat := []
deriving DecidableEq, Repr

/-- Risk level enumeration (`core/risk.py`). -/
inductive RiskLevel
  | low | medium | high
deriving DecidableEq, Repr

/-- The string value of a risk level (`RiskLevel(str, Enum)` members). -/
def RiskLevel.value : RiskLevel → String
  | .low => "low"
  | .medium => "medium"
  | .high => "high"

/-- `RiskScore` (`core/risk.py`). -/
structure RiskScore where
  level : RiskLevel
  score : Rat
  reasoning : String
  mitigations : List String := []
deriving DecidableEq, Repr

/-- `ExecutionPlan` (`coordination/messages.py`).  Of the metadata map only
the `risk_score` entry is consulted by the planner; it is modelled as an
optional `RiskScore`. -/
structure ExecutionPlan where
  id : Nat
  task_id : Nat
  steps : List PlanStep
  reasoning : String := ""
  confidence : Rat := 1/2
  created_by : String
  metadata_risk : Option RiskScore := none
deriving DecidableEq, Repr

/-- `TaskDefinition` (`coordination/messages.py`); context and constraints
maps are not consulted by the handling logic proved below. -/
structure TaskDefinition where
  id : Nat
  user_request : String
deriving DecidableEq, Repr

/-- `ExecutionResult` (`coordination/messages.py`): per-step outcome.
`output` is opaque tool data; duration and timestamp are omitted. -/
structure ExecResult where
  step_id : Nat
  success : Bool
  output : Option String := none
  error : Option String := none
deriving DecidableEq, Repr

/-! ## Risk engine (`core/risk.py`) -/

/-- `high_risk_tools` from `RiskEngine.evaluate_step`. -/
def highRiskTools : List String := ["shell_command"]

/-- `medium_risk_tools` from `RiskEngine.evaluate_step`. -/
def mediumRiskTools : List String := ["file_write", "note_create", "reminder_set", "app_launch"]

/-- `RiskEngine.evaluate_step`: classify one step by its tool name.  The
`args` parameter is accepted and ignored, as in the source. -/
def evaluateStep (tool_name : String) (_args : List (String × String)) : RiskScore :=
  if tool_name ∈ highRiskTools then
    { level := .high
      score := 9/10
      reasoning := "Tool '" ++ tool_name ++ "' allows arbitrary execution which is high risk."
      mitigations := ["User confirmation required", "Review command string"] }
  else if tool_name ∈ mediumRiskTools then
    { level := .medium
      score := 5/10
      reasoning := "Tool '" ++ tool_name ++ "' modifies local state or launches applications."
      mitigations := ["Check file paths", "Validate input content"] }
  else
    { level := .low
      score := 1/10
      reasoning := "Tool '" ++ tool_name ++ "' is considered low risk." }

/-- `RiskEngine.evaluate_plan`: aggregate plan risk as the maximum step
score, with the level derived from thresholds. -/
def evaluatePlan (steps : List PlanStep) : RiskScore :=
  let scores := steps.map fun s => evaluateStep s.tool_name s.tool_args
  match scores with
  | [] => { level := .low, score := 0, reasoning := "Empty plan" }
  | s0 :: rest =>
    let max_score := rest.foldl (fun acc s => max acc s.score) s0.score
    let level : RiskLevel :=
      if max_score ≥ 8/10 then .high
      else if max_score ≥ 4/10 then .medium
      else .low
    { level := level
      score := max_score
      reasoning := "Aggregate risk based on " ++ toString steps.length ++
        " steps. Highest risk step is " ++ level.value ++ "." }

/-- `RiskEngine.requires_confirmation`: mode-dependent confirmation gate.
Any mode other than `strict` and `permissive` takes the balanced branch. -/
def requiresConfirmation (mode : String) (risk : RiskScore) : Bool :=
  if mode = "strict" then decide (risk.level ≠ .low)
  else if mode = "permissive" then decide (risk.level = .high) && decide (risk.score > 95/100)
  else decide (risk.level = .high)

/-! ## Plan validator (`core/planning.py`, class `PlanValidator`) -/

/-- One visit of the depth-first search of
`PlanValidator._has_circular_dependency`, with the mutable `visited` set
threaded through the fold over `depends_on` and the recursion stack passed
down the call chain.  The source returns `True` as soon as a dependency is
found on the recursion stack or a nested visit reports a cycle; here the
fold's accumulator keeps `(found, visited)` and no-ops once `found` holds,
which yields the same result.  The `fuel` argument bounds the depth of
nested visits; every nested visit is on an id not yet in `visited` and
immediately inserts it, so a chain of nested visits never exceeds the
number of distinct ids mentioned by the plan and the zero-fuel branch is
unreachable for the fuel supplied by `hasCircularDependency`. -/
def dfsVisit (steps : List PlanStep) : Nat → Nat → List Nat → List Nat → Bool × List Nat
  | 0, sid, visited, _ => (false, sid :: visited)
  | fuel + 1, sid, visited, rstack =>
    let visited' := sid :: visited
    match steps.find? (fun s => s.id = sid) with
    | none => (false, visited')
    | some st =>
      st.depends_on.foldl
        (fun acc d =>
          if acc.1 then acc
          else if d ∉ acc.2 then dfsVisit steps fuel d acc.2 (sid :: rstack)
          else if d ∈ sid :: rstack then (true, acc.2)
          else acc)
        (false, visited')

/-- Fuel that the visit chain of the depth-first search can never exhaust:
one unit per id mentioned in the plan, plus one. -/
def dfsFuel (steps : List PlanStep) : Nat :=
  steps.length + (steps.map fun s => s.depends_on.length).sum + 1

/-- The outer loop of `PlanValidator._has_circular_dependency`: start a
depth-first search from every step not yet visited. -/
def circularLoop (steps : List PlanStep) : List PlanStep → List Nat → Bool
  | [], _ => false
  | st :: rest, visited =>
    if st.id ∈ visited then circularLoop steps rest visited
    else
      match dfsVisit steps (dfsFuel steps) st.id visited [] with
      | (true, _) => true
      | (false, visited') => circularLoop steps rest visited'

/-- `PlanValidator._has_circular_dependency`. -/
def hasCircularDependency (steps : List PlanStep) : Bool :=
  circularLoop steps steps []

/-- The position assigned to an id by the `step_positions` dict of
`PlanValidator._check_ordering` (`{step.id: i}`): the enumeration index of
the last step carrying that id, `none` when absent. -/
def lookupPos (steps : List PlanStep) (sid : Nat) : Option Nat :=
  ((steps.enum.filter fun p => p.2.id = sid).map fun p => p.1).getLast?

/-- `PlanValidator._check_ordering`: `false` when some step has a
dependency placed at a position `>=` the step's own position. -/
def checkOrdering (steps : List PlanStep) : Bool :=
  steps.all fun st =>
    st.depends_on.all fun dep =>
      match lookupPos steps dep with
      | none => true
      | some pd =>
        match lookupPos steps st.id with
        | none => true   -- unreachable: st is one of steps
        | some ps => decide (pd < ps)

/-- The undefined-dependency error strings appended by `PlanValidator.validate`
(one per `(step, dep)` pair with `dep` absent from the plan's own step ids). -/
def danglingErrors (steps : List PlanStep) : List String :=
  let ids := steps.map fun s => s.id
  (steps.map fun st =>
    (st.depends_on.filter fun d => decide (d ∉ ids)).map fun d =>
      "Step " ++ toString st.id ++ " depends on undefined step " ++ toString d).flatten

/-- Result of `PlanValidator.validate`: the returned boolean together with
the `errors` and `warnings` lists left on the validator. -/
structure ValidationOutcome where
  valid : Bool
  errors : List String
  warnings : List String
deriving DecidableEq, Repr

/-- `PlanValidator.validate`: empty plans and circular plans return early
with a single error; undefined dependencies accumulate errors; an ordering
violation only appends a warning; the returned boolean is
`errors == []`. -/
def validatePlan (plan : ExecutionPlan) : ValidationOutcome :=
  if plan.steps.isEmpty then
    { valid := false, errors := ["Plan has no execution steps"], warnings := [] }
  else if hasCircularDependency plan.steps then
    { valid := false, errors := ["Plan has circular step dependencies"], warnings := [] }
  else
    let errors := danglingErrors plan.steps
    let warnings :=
      if checkOrdering plan.steps then []
      else ["Step ordering may not respect all dependencies"]
    { valid := errors.isEmpty, errors := errors, warnings := warnings }

/-! ## Planner agent (`core/planner.py`, class `PlannerAgent`) -/

/-- The reply that `PlannerAgent.handle_message` publishes for a plan
request: a `PLAN_RESPONSE` carrying the plan, or a `REQUEST_FAILED`
carrying an error string (via `_send_error_response`). -/
inductive PlannerReply
  | planResponse (plan : ExecutionPlan)
  | requestFailed (error : String)
deriving DecidableEq, Repr

/-- The plan selection of `PlannerAgent.handle_message`: the backend plan
is kept unless the backend returned `None` or a plan created by the base
`engine`, in which case the rule-based fallback plan is used.  Every branch
of `_generate_plan_fallback` returns a plan, so the fallback is modelled as
a total function of the task. -/
def choosePlan (fallbackPlan : ExecutionPlan) (backend : Option ExecutionPlan) : ExecutionPlan :=
  match backend with
  | none => fallbackPlan
  | some p => if p.created_by = "engine" then fallbackPlan else p

/-- The risk-attachment step of `PlannerAgent.handle_message`: when the
plan metadata carries no `risk_score`, evaluate the plan and attach one. -/
def attachRisk (p : ExecutionPlan) : ExecutionPlan :=
  match p.metadata_risk with
  | some _ => p
  | none => { p with metadata_risk := some (evaluatePlan p.steps) }

/-- `PlannerAgent.handle_message`, as a function of the parsed task (`none`
models a payload without a `task` entry), the rule-based fallback and the
backend planning outcome.  The source calls
`self.planning_engine.validate_plan(plan)` and, when it returns false, only
logs `"Generated plan failed validation"`; the reply is a `PLAN_RESPONSE`
either way, so the validation verdict does not appear in the result. -/
def plannerHandleMessage (fallback : TaskDefinition → ExecutionPlan)
    (backend : Option ExecutionPlan) (task : Option TaskDefinition) : PlannerReply :=
  match task with
  | none => .requestFailed "No task in request"
  | some t =>
    let plan := attachRisk (choosePlan (fallback t) backend)
    let _is_valid := (validatePlan plan).valid   -- logged only, never gates the reply
    .planResponse plan

/-! ## Tool registry and step execution (`tools/base.py`, `core/executor.py`) -/

/-- Opaque tool arguments (`**kwargs`). -/
def ToolArgs := List (String × String)

/-- `ToolOutput` (`tools/base.py`): `success`, opaque `data`, optional
`error`. -/
structure ToolOutput where
  success : Bool
  data : Option String := none
  error : Option String := none
deriving DecidableEq, Repr

/-- A registered tool's `validate_and_execute` behaviour: either a
`ToolOutput` or a raised exception rendered as a string. -/
def ToolBehavior := ToolArgs → Except String ToolOutput

/-- `ToolRegistry`: the `_tools` dict, name to tool.  `register` raises on
duplicate names, so the keys are distinct. -/
def ToolRegistry := List (String × ToolBehavior)

/-- `ToolRegistry.get`: `self._tools.get(name)`, `none` when absent. -/
def registryGet (reg : ToolRegistry) (name : String) : Option ToolBehavior :=
  (reg.find? fun p => p.1 = name).map fun p => p.2

/-- `ExecutorAgent._execute_step`.  Each failure mode of the source is one
branch with a normal return: a missing tool yields `success = false` with
`Tool '<name>' not found`, a raised tool exception yields `success = false`
with the exception's message, and a returned output is copied with Python
truthiness applied to its `error` field (`output.error if ... and
output.error else None`, so an empty string becomes `none`).  The result
type being `ExecResult` rather than `Except` reflects that the source
returns on every path and propagates no exception. -/
def executeStep (reg : ToolRegistry) (step : PlanStep) : ExecResult :=
  match registryGet reg step.tool_name with
  | none =>
    { step_id := step.id
      success := false
      error := some ("Tool '" ++ step.tool_name ++ "' not found") }
  | some run =>
    match run step.tool_args with
    | .error e => { step_id := step.id, success := false, error := some e }
    | .ok out =>
      let err : Option String :=
        match out.error with
        | some s => if s = "" then none else some s
        | none => none
      { step_id := step.id, success := out.success, output := out.data, error := err }

/-- One `steps_executed` trace entry appended by
`ExecutorAgent.handle_message` (duration omitted). -/
structure StepRecord where
  step_id : Nat
  order : Int
  description : String
  success : Bool
deriving DecidableEq, Repr

/-- One structured `errors` trace entry appended by
`ExecutorAgent.handle_message` (`{"step_id": str(step.id), "error":
result.error}`); the verifier consumes entries of the same shape. -/
structure TraceError where
  step_id : String
  error : Option String
deriving DecidableEq, Repr

/-- The accumulating state of the `for step in plan.steps` loop of
`ExecutorAgent.handle_message`: the `results` dict (in insertion order) and
the trace's `steps_executed` and `errors` lists. -/
structure ExecAccum where
  results : List (Nat × ExecResult) := []
  steps_executed : List StepRecord := []
  errors : List TraceError := []
deriving DecidableEq, Repr

/-- One iteration of the executor's step loop.  The dependency check of the
source is `unmet = [dep for dep in step.depends_on if dep not in results]`:
a step whose `depends_on` is non-empty and contains an id with no recorded
result is skipped with `continue` (nothing recorded); otherwise the step is
dispatched, its result stored, a trace entry appended, and an error entry
appended when the result is unsuccessful. -/
def execLoopStep (runStep : PlanStep → ExecResult) (acc : ExecAccum) (step : PlanStep) : ExecAccum :=
  if ¬ step.depends_on.isEmpty ∧ ∃ d ∈ step.depends_on, d ∉ acc.results.map Prod.fst then
    acc
  else
    let r := runStep step
    { results := acc.results ++ [(step.id, r)]
      steps_executed := acc.steps_executed ++
        [{ step_id := step.id, order := step.order, description := step.description,
           success := r.success }]
      errors :=
        if r.success then acc.errors
        else acc.errors ++ [{ step_id := toString step.id, error := r.error }] }

/-- The full step loop of `ExecutorAgent.handle_message` over the plan's
steps in listed order. -/
def executeAll (runStep : PlanStep → ExecResult) (steps : List PlanStep) : ExecAccum :=
  steps.foldl (execLoopStep runStep) {}

/-! ## State manager (`core/state.py`, class `StateManager`) -/

/-- `ExecutionTrace` (`core/state.py`): status plus the fields the state
manager writes; timestamps omitted. -/
structure ExecTrace where
  status : String := "pending"
  steps_executed : List StepRecord := []
  errors : List TraceError := []
  final_result : Option String := none
deriving DecidableEq, Repr

/-- `ExecutionState` (`core/state.py`). -/
structure ExecState where
  task_id : Nat
  agent_id : String
  trace : ExecTrace := {}
deriving DecidableEq, Repr

/-- Last-write-wins association-list update, modelling Python dict
assignment `d[k] = v`. -/
def setKey (l : List (Nat × ExecState)) (k : Nat) (v : ExecState) : List (Nat × ExecState) :=
  if l.any fun p => p.1 = k then
    l.map fun p => if p.1 = k then (k, v) else p
  else l ++ [(k, v)]

/-- Association-list lookup, modelling Python `dict.get`. -/
def getKey (l : List (Nat × ExecState)) (k : Nat) : Option ExecState :=
  (l.find? fun p => p.1 = k).map fun p => p.2

/-- `StateManager`: the `_execution_states` dict and the system state's
`active_tasks` list. -/
structure StateMgr where
  active_tasks : List Nat := []
  exec_states : List (Nat × ExecState) := []
deriving DecidableEq, Repr

/-- `StateManager.register_task`: create a fresh `ExecutionState` (trace
status `"pending"`) and append the task to `active_tasks`. -/
def registerTask (mgr : StateMgr) (task_id : Nat) (agent_id : String) : StateMgr :=
  { active_tasks := mgr.active_tasks ++ [task_id]
    exec_states := setKey mgr.exec_states task_id { task_id := task_id, agent_id := agent_id } }

/-- `StateManager.mark_task_complete`: set the trace status to
`"completed"` and store the final result.  The source never touches
`active_tasks` here. -/
def markTaskComplete (mgr : StateMgr) (task_id : Nat) (result : Option String) : StateMgr :=
  match getKey mgr.exec_states task_id with
  | none => mgr
  | some st =>
    { mgr with
      exec_states := setKey mgr.exec_states task_id
        { st with trace := { st.trace with status := "completed", final_result := result } } }

/-- `StateManager.get_active_tasks`: a copy of the `active_tasks` list. -/
def getActiveTasks (mgr : StateMgr) : List Nat :=
  mgr.active_tasks

/-- `StateManager.get_execution_state`. -/
def getExecutionState (mgr : StateMgr) (task_id : Nat) : Option ExecState :=
  getKey mgr.exec_states task_id

/-! ## Message bus (`coordination/bus.py`, class `MessageBus`) -/

/-- One filter of `MessageBus.get_history` for a string field.  The source
guard is `if sender and msg.sender != sender`: the filter applies only when
the argument is truthy, so `None` and the empty string both disable it. -/
def strFilterOk (filter : Option String) (field : String) : Bool :=
  match filter with
  | none => true
  | some s => if s = "" then true else decide (field = s)

/-- The combined filter predicate of `MessageBus.get_history`. -/
def msgMatches (sender recipient : Option String) (mtype : Option MessageType)
    (m : Message) : Bool :=
  strFilterOk sender m.sender &&
  strFilterOk recipient m.recipient &&
  (match mtype with
   | none => true
   | some t => decide (m.message_type = t))

/-- The collection loop of `MessageBus.get_history`: scan the given list
(the reversed history), append matches, and stop as soon as the collected
count reaches `limit` (`if len(results) >= limit: break`, checked after
each append). -/
def historyCollect (p : Message → Bool) (limit : Int) : List Message → List Message → List Message
  | [], acc => acc
  | m :: ms, acc =>
    if p m then
      let acc' := acc ++ [m]
      if limit ≤ (acc'.length : Int) then acc' else historyCollect p limit ms acc'
    else historyCollect p limit ms acc

/-- `MessageBus.get_history`: iterate the history newest-first collecting
up to `limit` matches, then `return list(reversed(results))`. -/
def getHistory (history : List Message) (sender recipient : Option String)
    (mtype : Option MessageType) (limit : Int) : List Message :=
  (historyCollect (msgMatches sender recipient mtype) limit history.reverse []).reverse

/-- The history append of `MessageBus.publish`: append, then evict the
oldest entry while over the cap. -/
def capAppend (cap : Nat) (history : List Message) (m : Message) : List Message :=
  let h := history ++ [m]
  if h.length > cap then h.drop 1 else h

/-- The bus state touched by `publish`, `_route_message` and
`request_response`: the history, the keys of the `_pending_responses` dict,
and the resolutions performed so far (waiter key paired with the message
that resolved the future), in order. -/
structure BusState where
  max_history : Nat := 10000
  history : List Message := []
  pending : List Nat := []
  resolutions : List (Nat × Message) := []
deriving Repr

/-- The tail of `MessageBus._route_message`: when the delivered message
carries a `correlation_id` matching a pending waiter, pop the waiter and
resolve its future with the message, marking the message `COMPLETED`. -/
def matchPending (st : BusState) (m : Message) : BusState :=
  match m.correlation_id with
  | none => st
  | some c =>
    if c ∈ st.pending then
      { st with
        pending := st.pending.erase c
        resolutions := st.resolutions ++ [(c, { m with status := .completed })] }
    else st

/-- `MessageBus.publish` for a message published during routing (a handler
reply): stamp status `SENT`, append to the capped history, then route,
which ends with the pending-waiter check.  Handler delivery itself moves no
bus state and is omitted. -/
def busPublish (st : BusState) (m : Message) : BusState :=
  let m' := { m with status := MessageStatus.sent }
  matchPending { st with history := capAppend st.max_history st.history m' } m'

/-- Outcome of `MessageBus.request_response`: the resolved response, or the
`asyncio.TimeoutError` path (which stamps the request `TIMEOUT` and pops
the waiter). -/
inductive RROutcome
  | response (m : Message)
  | timeout
deriving Repr

/-- `MessageBus.request_response`, as a function of the bus state, the
request, and the messages the subscribed handlers publish while the
request is being routed (`handlerReplies = []` models a request with no
responding handler, as in spec scenario S6).  The source sets
`message.correlation_id = message.id`, registers a future under that key,
publishes (handlers run first, then the routed request itself is checked
against the pending waiters), and then awaits the future with a timeout;
the timeout branch pops the waiter.  The awaited value is the first
resolution recorded for the key during the call. -/
def requestResponse (st : BusState) (m : Message) (handlerReplies : List Message) :
    BusState × RROutcome :=
  let m' := { m with correlation_id := some m.id, status := MessageStatus.sent }
  let st1 := { st with pending := st.pending ++ [m.id] }
  let st2 := { st1 with history := capAppend st1.max_history st1.history m' }
  let st3 := handlerReplies.foldl busPublish st2
  let st4 := matchPending st3 m'
  let fresh := st4.resolutions.drop st.resolutions.length
  match (fresh.filter fun pr => decide (pr.1 = m.id)).head? with
  | some pr => (st4, .response pr.2)
  | none => ({ st4 with pending := st4.pending.erase m.id }, .timeout)

/-! ## Verifier agent (`core/verifier.py`, `VerifierAgent._verify_execution`) -/

/-- Python `str(...)` on the optional error carried by a structured trace
error (an `f"{error.get('error')}"` renders `None` literally). -/
def pyStrOpt : Option String → String
  | none => "None"
  | some s => s

/-- The per-error issue line `"  - Step {id}: {error}"`. -/
def errIssueLine (e : TraceError) : String :=
  "  - Step " ++ e.step_id ++ ": " ++ pyStrOpt e.error

/-- The verdict assembled by `VerifierAgent._verify_execution` (plan and
task ids are passed through unchanged and omitted here). -/
structure Verdict where
  verified : Bool
  issues : List String
  recommendations : List String
deriving DecidableEq, Repr

/-- `VerifierAgent._verify_execution` on the trace's `steps_executed` and
`errors` lists: an empty trace and the presence of structured errors each
contribute issues and a recommendation; `verified` is
`len(issues) == 0 and all_successful`. -/
def verifyExecution (stepsExecuted : List StepRecord) (errors : List TraceError) : Verdict :=
  let issues :=
    (if stepsExecuted.isEmpty then ["No steps were executed"] else []) ++
    (if errors.isEmpty then []
     else ("Execution encountered " ++ toString errors.length ++ " error(s)") ::
       errors.map errIssueLine)
  let recommendations :=
    (if stepsExecuted.isEmpty then ["Review the execution plan for issues"] else []) ++
    (if errors.isEmpty then [] else ["Review errors and retry failed steps"])
  let all_successful := stepsExecuted.all fun s => s.success
  { verified := issues.isEmpty && all_successful
    issues := issues
    recommendations := recommendations }

/-! ## Reminder monitor (`daemon/reminder_monitor.py`, class `ReminderMonitor`) -/

/-- A persisted reminder (`reminders.json` entry).  `scheduled_time` is the
result of parsing the stored ISO string: `none` models a string on which
`datetime.fromisoformat` raises `ValueError`. -/
structure Reminder where
  id : Nat
  message : String := ""
  scheduled_time : Option Int
  priority : String := "normal"
  is_active : Bool := true
deriving DecidableEq, Repr

/-- The outcome of one `_check_reminders` tick: the in-session
`sent_notifications` set, the persisted reminder list, the ids for which
`_send_notification` was called this tick, and the ids for which no
notification channel succeeded (the warning path of
`_send_notification`). -/
structure TickResult where
  fired : List Nat
  reminders : List Reminder
  notified : List Nat
  warned : List Nat
deriving DecidableEq, Repr

/-- One `_check_reminders` tick over the loaded reminder list, in order.
`channelOk r.id` gives the delivery outcomes of the configured channels
(desktop, email, whatsapp) for that reminder.  A reminder already in the
session set, or inactive, or with an unparseable time, or not yet due, is
skipped; a due one is notified (regardless of channel outcomes), added to
the session set, and flipped inactive in the persisted list. -/
def checkReminders (channelOk : Nat → List Bool) (fired : List Nat) (now : Int) :
    List Reminder → TickResult
  | [] => { fired := fired, reminders := [], notified := [], warned := [] }
  | r :: rest =>
    if r.id ∈ fired then
      let t := checkReminders channelOk fired now rest
      { t with reminders := r :: t.reminders }
    else if ¬ r.is_active then
      let t := checkReminders channelOk fired now rest
      { t with reminders := r :: t.reminders }
    else
      match r.scheduled_time with
      | none =>   -- ValueError: log and skip only this reminder
        let t := checkReminders channelOk fired now rest
        { t with reminders := r :: t.reminders }
      | some sched =>
        if sched ≤ now then
          let warnedHere := if (channelOk r.id).any (fun b => b) then [] else [r.id]
          let t := checkReminders channelOk (fired ++ [r.id]) now rest
          { fired := t.fired
            reminders := { r with is_active := false } :: t.reminders
            notified := r.id :: t.notified
            warned := warnedHere ++ t.warned }
        else
          let t := checkReminders channelOk fired now rest
          { t with reminders := r :: t.reminders }

/-! ## Concrete instances used by counterexamples and witnesses -/

/-- A step placed first in the list although it depends on the later step
`2`; topologically consistent (`2` has no dependencies) but
non-sequential. -/
def stepNeedsLater : PlanStep :=
  { id := 1, order := 1, description := "uses 2", tool_name := "note_list", depends_on := [2] }

/-- The later step that `stepNeedsLater` depends on. -/
def stepProvider : PlanStep :=
  { id := 2, order := 2, description := "provides", tool_name := "note_list" }

/-- A plan whose listed order violates its dependency order without any
cycle or dangling reference. -/
def orderViolationPlan : ExecutionPlan :=
  { id := 100, task_id := 101, steps := [stepNeedsLater, stepProvider], created_by := "gemini" }

/-- Two mutually dependent steps. -/
def cycStepA : PlanStep :=
  { id := 1, order := 1, description := "a", tool_name := "note_list", depends_on := [2] }

/-- Second half of the two-step cycle. -/
def cycStepB : PlanStep :=
  { id := 2, order := 2, description := "b", tool_name := "note_list", depends_on := [1] }

/-- A plan with a circular dependency, attributed to a model backend. -/
def cyclicPlan : ExecutionPlan :=
  { id := 200, task_id := 201, steps := [cycStepA, cycStepB], created_by := "gemini" }

/-- A concrete task to hand the planner. -/
def task0 : TaskDefinition := { id := 1, user_request := "do things" }

/-- A concrete stand-in for `_generate_plan_fallback` (its generic single
step branch). -/
def genericFallback (t : TaskDefinition) : ExecutionPlan :=
  { id := 300, task_id := t.id
    steps := [{ id := 31, order := 1, description := "Execute", tool_name := "generic_command" }]
    created_by := "planner" }

/-- First executor step, with no dependencies. -/
def failStep : PlanStep :=
  { id := 1, order := 1, description := "s1", tool_name := "shell_command" }

/-- Second executor step, depending on `failStep`. -/
def depStep : PlanStep :=
  { id := 2, order := 2, description := "s2", tool_name := "note_list", depends_on := [1] }

/-- A step oracle on which step `1` fails and every other step succeeds. -/
def runFailFirst (st : PlanStep) : ExecResult :=
  if st.id = 1 then { step_id := st.id, success := false, error := some "boom" }
  else { step_id := st.id, success := true }

/-- Older bus message. -/
def msgOld : Message := { id := 1, message_type := .agent_ready, sender := "a", recipient := "b" }

/-- Newer bus message. -/
def msgNew : Message := { id := 2, message_type := .agent_ready, sender := "b", recipient := "a" }

/-- A single plan step invoking `shell_command`. -/
def shellStepEx : PlanStep :=
  { id := 41, order := 1, description := "List files", tool_name := "shell_command"
    tool_args := [("command", "ls -la /tmp")] }

/-- A tool whose execution raises. -/
def kaputTool : ToolBehavior := fun _ => Except.error "kaput"

/-- A registry holding only `kaputTool` under the name `"t"`. -/
def regKaput : ToolRegistry := [("t", kaputTool)]

/-- A step naming a tool absent from `regKaput`. -/
def stepMissingTool : PlanStep :=
  { id := 51, order := 1, description := "missing", tool_name := "missing" }

/-- A step naming the raising tool of `regKaput`. -/
def stepKaput : PlanStep :=
  { id := 52, order := 1, description := "kaput", tool_name := "t" }

/-- A due, active reminder. -/
def remEx : Reminder := { id := 5, message := "submit report", scheduled_time := some 10 }

/-! ## Helper lemmas -/

theorem foldlMax_init_le (l : List Rat) (a : Rat) : a ≤ l.foldl max a := by
  induction l generalizing a with
  | nil => exact le_refl a
  | cons x xs ih => exact le_trans (le_max_left a x) (ih (max a x))

theorem foldlMax_le_of_mem (l : List Rat) (a : Rat) : ∀ x ∈ l, x ≤ l.foldl max a := by
  induction l generalizing a with
  | nil => intro x hx; cases hx
  | cons y ys ih =>
    intro x hx
    rcases List.mem_cons.mp hx with rfl | hx'
    · exact le_trans (le_max_right a x) (foldlMax_init_le ys (max a x))
    · exact ih (max a y) x hx'

theorem foldlMax_eq_init_or_mem (l : List Rat) (a : Rat) :
    l.foldl max a = a ∨ l.foldl max a ∈ l := by
  induction l generalizing a with
  | nil => exact Or.inl rfl
  | cons y ys ih =>
    rcases ih (max a y) with h | h
    · rcases max_choice a y with hm | hm
      · exact Or.inl (by rw [List.foldl_cons, h, hm])
      · exact Or.inr (by rw [List.foldl_cons, h, hm]; exact List.mem_cons_self y ys)
    · exact Or.inr (List.mem_cons_of_mem y h)

theorem evaluatePlan_score_eq (s0 : PlanStep) (rest : List PlanStep) :
    (evaluatePlan (s0 :: rest)).score =
      (rest.map fun st => (evaluateStep st.tool_name st.tool_args).score).foldl max
        (evaluateStep s0.tool_name s0.tool_args).score := by
  show ((rest.map fun st => evaluateStep st.tool_name st.tool_args).foldl
      (fun acc s => max acc s.score) (evaluateStep s0.tool_name s0.tool_args).score) = _
  rw [List.foldl_map, List.foldl_map]

theorem evaluatePlan_level_eq (s0 : PlanStep) (rest : List PlanStep) :
    (evaluatePlan (s0 :: rest)).level =
      (if (evaluatePlan (s0 :: rest)).score ≥ 8/10 then RiskLevel.high
       else if (evaluatePlan (s0 :: rest)).score ≥ 4/10 then RiskLevel.medium
       else RiskLevel.low) :=
  rfl

/-! ## C6 — risk scoring and the confirmation policy -/

/-- C6: per-step scores are 0.9/HIGH for `shell_command`, 0.5/MEDIUM for the
four medium-risk tools, 0.1/LOW otherwise; the plan score of a non-empty
plan is the maximum step score with the level given by the 0.8/0.4
thresholds; and `requires_confirmation` holds in `strict` mode iff the
level is not LOW, in `balanced` mode iff the level is HIGH, and in
`permissive` mode iff the level is HIGH and the score exceeds 0.95. -/
theorem C6_risk_engine_policy :
    (∀ args, (evaluateStep "shell_command" args).level = RiskLevel.high ∧
      (evaluateStep "shell_command" args).score = 9/10) ∧
    (∀ name args, name ∈ mediumRiskTools →
      (evaluateStep name args).level = RiskLevel.medium ∧
      (evaluateStep name args).score = 5/10) ∧
    (∀ name args, name ∉ highRiskTools → name ∉ mediumRiskTools →
      (evaluateStep name args).level = RiskLevel.low ∧
      (evaluateStep name args).score = 1/10) ∧
    (∀ steps : List PlanStep, steps ≠ [] →
      (∀ s ∈ steps, (evaluateStep s.tool_name s.tool_args).score ≤ (evaluatePlan steps).score) ∧
      (∃ s ∈ steps, (evaluatePlan steps).score = (evaluateStep s.tool_name s.tool_args).score) ∧
      ((evaluatePlan steps).level = RiskLevel.high ↔ (evaluatePlan steps).score ≥ 8/10) ∧
      ((evaluatePlan steps).level = RiskLevel.medium ↔
        (4/10 ≤ (evaluatePlan steps).score ∧ (evaluatePlan steps).score < 8/10)) ∧
      ((evaluatePlan steps).level = RiskLevel.low ↔ (evaluatePlan steps).score < 4/10)) ∧
    (∀ risk : RiskScore,
      (requiresConfirmation "strict" risk = true ↔ risk.level ≠ RiskLevel.low) ∧
      (requiresConfirmation "balanced" risk = true ↔ risk.level = RiskLevel.high) ∧
      (requiresConfirmation "permissive" risk = true ↔
        (risk.level = RiskLevel.high ∧ risk.score > 95/100))) := by
  refine ⟨?_, ?_, ?_, ?_, ?_⟩
  · intro args; exact ⟨rfl, rfl⟩
  · intro name args hmem
    have hhigh : name ∉ highRiskTools := by
      intro hc
      rw [highRiskTools, List.mem_singleton] at hc
      subst hc
      revert hmem
      decide
    rw [evaluateStep, if_neg hhigh, if_pos hmem]
    exact ⟨rfl, rfl⟩
  · intro name args hhigh hmed
    rw [evaluateStep, if_neg hhigh, if_neg hmed]
    exact ⟨rfl, rfl⟩
  · intro steps hne
    obtain ⟨s0, rest, rfl⟩ : ∃ s0 rest, steps = s0 :: rest := by
      cases steps with
      | nil => exact absurd rfl hne
      | cons a l => exact ⟨a, l, rfl⟩
    have hscore := evaluatePlan_score_eq s0 rest
    refine ⟨?_, ?_, ?_⟩
    · intro s hs
      rcases List.mem_cons.mp hs with rfl | hs'
      · rw [hscore]; exact foldlMax_init_le _ _
      · rw [hscore]
        exact foldlMax_le_of_mem _ _ _ (List.mem_map_of_mem _ hs')
    · rcases foldlMax_eq_init_or_mem
        (rest.map fun st => (evaluateStep st.tool_name st.tool_args).score)
        (evaluateStep s0.tool_name s0.tool_args).score with h | h
      · exact ⟨s0, List.mem_cons_self s0 rest, by rw [hscore, h]⟩
      · obtain ⟨s, hs, hval⟩ := List.mem_map.mp h
        exact ⟨s, List.mem_cons_of_mem s0 hs, by rw [hscore, hval]⟩
    · rw [evaluatePlan_level_eq s0 rest]
      by_cases h8 : (evaluatePlan (s0 :: rest)).score ≥ 8/10
      · rw [if_pos h8]
        refine ⟨by simp [h8], ?_, ?_⟩
        · constructor
          · intro h; cases h
          · rintro ⟨-, hlt⟩; exact absurd h8 (not_le.mpr hlt)
        · constructor
          · intro h; cases h
          · intro hlt; exact absurd h8 (not_le.mpr (lt_trans hlt (by norm_num)))
      · rw [if_neg h8]
        by_cases h4 : (evaluatePlan (s0 :: rest)).score ≥ 4/10
        · rw [if_pos h4]
          refine ⟨?_, ?_, ?_⟩
          · constructor
            · intro h; cases h
            · intro h; exact absurd h h8
          · simp [h4, lt_of_not_ge h8]
          · constructor
            · intro h; cases h
            · intro hlt; exact absurd h4 (not_le.mpr hlt)
        · rw [if_neg h4]
          refine ⟨?_, ?_, ?_⟩
          · constructor
            · intro h; cases h
            · intro h; exact absurd h h8
          · constructor
            · intro h; cases h
            · rintro ⟨hge, -⟩; exact absurd hge h4
          · simp [lt_of_not_ge h4]
  · intro risk
    refine ⟨?_, ?_, ?_⟩
    · rw [requiresConfirmation, if_pos rfl]; simp
    · rw [requiresConfirmation, if_neg (by decide), if_neg (by decide)]; simp
    · rw [requiresConfirmation, if_neg (by decide), if_pos rfl]; simp

/-- C6 witness: concrete instantiations discharging the hypotheses of
`C6_risk_engine_policy`. -/
theorem C6_risk_engine_policy_witness :
    ("file_write" ∈ mediumRiskTools ∧ (evaluateStep "file_write" []).level = RiskLevel.medium) ∧
    (([shellStepEx] : List PlanStep) ≠ [] ∧ (evaluatePlan [shellStepEx]).level = RiskLevel.high) := by
  constructor
  · exact ⟨by decide, (C6_risk_engine_policy.2.1 "file_write" [] (by decide)).1⟩
  · refine ⟨by simp, ?_⟩
    have h := (C6_risk_engine_policy.2.2.2.1 [shellStepEx] (by simp)).2.2.1
    exact h.mpr (by norm_num [evaluatePlan_score_eq, shellStepEx, evaluateStep, highRiskTools])

/-! ## C7 — the verifier's verdict -/

/-- C7: the verifier reports `verified = true` iff the trace has at least
one executed step, every executed step succeeded and the structured error
list is empty; each structured error contributes the issue line
`"  - Step {id}: {error}"`; the recommendation
`"Review the execution plan for issues"` appears when the trace is empty
and `"Review errors and retry failed steps"` when errors are present. -/
theorem C7_verifier_verdict (se : List StepRecord) (errs : List TraceError) :
    ((verifyExecution se errs).verified = true ↔
      (se ≠ [] ∧ (∀ s ∈ se, s.success = true) ∧ errs = [])) ∧
    (∀ e ∈ errs, errIssueLine e ∈ (verifyExecution se errs).issues) ∧
    (se = [] → "Review the execution plan for issues" ∈
      (verifyExecution se errs).recommendations) ∧
    (errs ≠ [] → "Review errors and retry failed steps" ∈
      (verifyExecution se errs).recommendations) := by
  by_cases hse : se = [] <;> by_cases herr : errs = [] <;>
    simp only [verifyExecution, List.isEmpty_iff, hse, herr, if_true, if_false,
      if_pos, if_neg, not_false_iff]
  · subst hse herr
    simp
  · subst hse
    simp only [if_pos rfl, if_neg herr, ne_eq, not_true_eq_false, false_and, iff_false,
      List.nil_append]
    refine ⟨by simp, ?_, by simp, by simp⟩
    intro e he
    simp only [List.cons_append, List.mem_cons, List.mem_append, List.mem_map]
    right
    right
    right
    exact ⟨e, he, rfl⟩
  · subst herr
    simp only [if_neg hse, if_pos rfl, List.append_nil, List.nil_append, List.isEmpty_nil,
      Bool.true_and, List.all_eq_true]
    refine ⟨by simp [hse], by simp, by simp [hse], by simp⟩
  · simp only [if_neg hse, if_neg herr, List.nil_append]
    refine ⟨?_, ?_, by simp [hse], by simp⟩
    · simp [herr]
    · intro e he
      exact List.mem_cons_of_mem _ (List.mem_map_of_mem _ he)

/-- C7 witness: `C7_verifier_verdict` applied to an empty trace carrying
one structured error. -/
theorem C7_verifier_verdict_witness :
    errIssueLine ⟨"1", some "boom"⟩ ∈ (verifyExecution [] [⟨"1", some "boom"⟩]).issues ∧
    "Review the execution plan for issues" ∈
      (verifyExecution [] [⟨"1", some "boom"⟩]).recommendations ∧
    "Review errors and retry failed steps" ∈
      (verifyExecution [] [⟨"1", some "boom"⟩]).recommendations := by
  have h := C7_verifier_verdict [] [⟨"1", some "boom"⟩]
  exact ⟨h.2.1 _ (List.mem_singleton.mpr rfl), h.2.2.1 rfl, h.2.2.2 (by simp)⟩

/-! ## C10 — totality of the executor's step execution -/

/-- C10: `_execute_step` always produces an `ExecutionResult` for the given
step (visible in the embedded return type, since each source failure mode
is a normal return); an unregistered tool yields `success = false` with
`Tool '<name>' not found`, and a raising tool yields `success = false` with
the exception's message. -/
theorem C10_execute_step_total (reg : ToolRegistry) (step : PlanStep) :
    (executeStep reg step).step_id = step.id ∧
    (registryGet reg step.tool_name = none →
      executeStep reg step =
        { step_id := step.id, success := false, output := none,
          error := some ("Tool '" ++ step.tool_name ++ "' not found") }) ∧
    (∀ run e, registryGet reg step.tool_name = some run →
      run step.tool_args = Except.error e →
      executeStep reg step =
        { step_id := step.id, success := false, output := none, error := some e }) := by
  refine ⟨?_, ?_, ?_⟩
  · unfold executeStep
    rcases h : registryGet reg step.tool_name with _ | run
    · rfl
    · rcases hr : run step.tool_args with e | out
      · simp [hr]
      · simp [hr]
  · intro h
    unfold executeStep
    rw [h]
  · intro run e h hr
    simp only [executeStep, h, hr]

/-- C10 witness: `C10_execute_step_total` applied to a registry holding one
raising tool, at a step naming a missing tool and at a step naming the
raising tool. -/
theorem C10_execute_step_total_witness :
    executeStep regKaput stepMissingTool =
      { step_id := 51, success := false, output := none,
        error := some "Tool 'missing' not found" } ∧
    executeStep regKaput stepKaput =
      { step_id := 52, success := false, output := none, error := some "kaput" } :=
  ⟨(C10_execute_step_total regKaput stepMissingTool).2.1 rfl,
   (C10_execute_step_total regKaput stepKaput).2.2 kaputTool "kaput" rfl rfl⟩

/-! ## C3 — a completed task stays in `active_tasks` -/

/-- C3: the code evaluated at the claim's failing input.  After
`register_task(7, "executor")` followed by `mark_task_complete(7, ...)`,
the trace status is `"completed"` yet `7` is still returned by
`get_active_tasks()` — `mark_task_complete` never removes the task, so the
claimed equivalence between `active_tasks` membership and a non-terminal
trace status does not hold. -/
theorem C3_completed_task_stays_active :
    7 ∈ getActiveTasks (markTaskComplete (registerTask {} 7 "executor") 7 (some "done")) ∧
    ((getExecutionState (markTaskComplete (registerTask {} 7 "executor") 7 (some "done")) 7).map
      fun s => s.trace.status) = some "completed" := by
  exact ⟨by decide, rfl⟩

/-! ## C1 — the planner's reply on validation failure -/

/-- C1 counterexample: a backend plan with a circular dependency (hence
failing validation) is still sent in a `PLAN_RESPONSE`; the validation
verdict is only logged.  This falsifies the claim that every plan sent in
a `PLAN_RESPONSE` satisfies `validate(plan) = true`. -/
theorem C1_counterexample :
    plannerHandleMessage genericFallback (some cyclicPlan) (some task0) =
      PlannerReply.planResponse (attachRisk cyclicPlan) ∧
    (validatePlan (attachRisk cyclicPlan)).valid = false :=
  ⟨rfl, rfl⟩

/-- C1 amended: for every parsed task the planner replies `PLAN_RESPONSE`
with the chosen plan carrying a `risk_score`, whether or not that plan
passes validation (a failure is only logged); `REQUEST_FAILED` is emitted
when the request payload has no task (and on raised exceptions, the other
`_send_error_response` path). -/
theorem C1_planner_always_responds (fallback : TaskDefinition → ExecutionPlan)
    (backend : Option ExecutionPlan) (t : TaskDefinition) :
    (∃ p, plannerHandleMessage fallback backend (some t) = PlannerReply.planResponse p ∧
      p.metadata_risk.isSome = true) ∧
    plannerHandleMessage fallback backend none =
      PlannerReply.requestFailed "No task in request" := by
  refine ⟨⟨attachRisk (choosePlan (fallback t) backend), rfl, ?_⟩, rfl⟩
  cases h : (choosePlan (fallback t) backend).metadata_risk <;> simp [attachRisk, h]

/-! ## C2 — the executor's dependency gate -/

/-- C2 counterexample: in the two-step plan `[failStep, depStep]` with
`depStep.depends_on = [failStep.id]` and an oracle on which `failStep`
fails, `depStep` is still dispatched (its id appears in the results map)
even though its only predecessor reported failure.  The source's gate only
checks `dep not in results` (was the dependency executed), not that it
succeeded, so the claim's dispatch condition is falsified. -/
theorem C2_counterexample :
    ((executeAll runFailFirst [failStep, depStep]).results.map Prod.fst = [1, 2]) ∧
    (((executeAll runFailFirst [failStep, depStep]).results.map fun p => p.2.success) =
      [false, true]) :=
  ⟨rfl, rfl⟩

/-- C2 amended: a step is dispatched exactly when every id in its
`depends_on` has a recorded result from a previously executed step,
regardless of whether those results were successes; a step with a
dependency lacking any recorded result is skipped by `continue`, leaving
the accumulated results, trace and errors unchanged (the skip is not
recorded).  A dispatched step appends its result, a trace entry, and an
error entry exactly when the result is unsuccessful. -/
theorem C2_executor_dependency_rule (runStep : PlanStep → ExecResult) (acc : ExecAccum)
    (step : PlanStep) :
    ((¬ step.depends_on.isEmpty ∧ ∃ d ∈ step.depends_on, d ∉ acc.results.map Prod.fst) →
      execLoopStep runStep acc step = acc) ∧
    ((∀ d ∈ step.depends_on, d ∈ acc.results.map Prod.fst) →
      (execLoopStep runStep acc step).results = acc.results ++ [(step.id, runStep step)] ∧
      (execLoopStep runStep acc step).steps_executed = acc.steps_executed ++
        [{ step_id := step.id, order := step.order, description := step.description,
           success := (runStep step).success }] ∧
      ((runStep step).success = true → (execLoopStep runStep acc step).errors = acc.errors) ∧
      ((runStep step).success = false → (execLoopStep runStep acc step).errors =
        acc.errors ++ [{ step_id := toString step.id, error := (runStep step).error }])) := by
  constructor
  · intro h
    unfold execLoopStep
    rw [if_pos h]
  · intro h
    have hcond : ¬ (¬ step.depends_on.isEmpty ∧
        ∃ d ∈ step.depends_on, d ∉ acc.results.map Prod.fst) := by
      rintro ⟨-, d, hd, hnot⟩
      exact hnot (h d hd)
    unfold execLoopStep
    rw [if_neg hcond]
    refine ⟨rfl, rfl, ?_, ?_⟩
    · intro hs; simp [hs]
    · intro hs; simp [hs]

/-- C2 witness: `C2_executor_dependency_rule` applied at the start of
execution, where `depStep`'s dependency has no recorded result (skip
branch) and `failStep` has no dependencies (dispatch branch). -/
theorem C2_executor_dependency_rule_witness :
    execLoopStep runFailFirst {} depStep = ({} : ExecAccum) ∧
    (execLoopStep runFailFirst {} failStep).results = [(1, runFailFirst failStep)] := by
  constructor
  · exact (C2_executor_dependency_rule runFailFirst {} depStep).1 (by decide)
  · have h := ((C2_executor_dependency_rule runFailFirst {} failStep).2
      (by intro d hd; cases hd)).1
    exact h.trans (List.nil_append _)

/-! ## C9 — what the plan validator rejects -/

/-- C9 counterexample: a plan whose first listed step depends on the later
second step is accepted by `validate()` (no cycle, no dangling reference),
even though the dependency's position (1) is `>=` the step's position (0);
the ordering check only feeds the warning list.  This falsifies the
claim that such plans are rejected. -/
theorem C9_counterexample :
    (validatePlan orderViolationPlan).valid = true ∧
    checkOrdering orderViolationPlan.steps = false ∧
    lookupPos orderViolationPlan.steps 2 = some 1 ∧
    lookupPos orderViolationPlan.steps 1 = some 0 :=
  ⟨rfl, rfl, rfl, rfl⟩

theorem danglingErrors_eq_nil_iff (steps : List PlanStep) :
    danglingErrors steps = [] ↔
      ∀ st ∈ steps, ∀ d ∈ st.depends_on, d ∈ steps.map fun s => s.id := by
  simp only [danglingErrors, List.flatten_eq_nil_iff, List.mem_map]
  constructor
  · intro h st hst d hd
    have h2 := h _ ⟨st, hst, rfl⟩
    rw [List.map_eq_nil_iff, List.filter_eq_nil_iff] at h2
    have h3 := h2 d hd
    simpa using h3
  · rintro h l ⟨st, hst, rfl⟩
    rw [List.map_eq_nil_iff, List.filter_eq_nil_iff]
    intro d hd
    simp [h st hst d hd]

/-- C9 amended: `validate()` returns `false` exactly when the plan has no
steps, or has a circular dependency, or some step's `depends_on` references
an id absent from the plan's steps; the empty and circular cases return
early with their single error string, and an ordering violation on an
otherwise valid plan only appends the warning
`"Step ordering may not respect all dependencies"` without rejecting. -/
theorem C9_validator_rejects (plan : ExecutionPlan) :
    ((validatePlan plan).valid = false ↔
      (plan.steps = [] ∨ hasCircularDependency plan.steps = true ∨
        ∃ st ∈ plan.steps, ∃ d ∈ st.depends_on, d ∉ plan.steps.map fun s => s.id)) ∧
    (plan.steps = [] → (validatePlan plan).errors = ["Plan has no execution steps"]) ∧
    (plan.steps ≠ [] → hasCircularDependency plan.steps = true →
      (validatePlan plan).errors = ["Plan has circular step dependencies"]) ∧
    (plan.steps ≠ [] → hasCircularDependency plan.steps = false →
      checkOrdering plan.steps = false →
      (validatePlan plan).warnings = ["Step ordering may not respect all dependencies"]) := by
  unfold validatePlan
  by_cases h0 : plan.steps.isEmpty
  · have h0' : plan.steps = [] := List.isEmpty_iff.mp h0
    rw [if_pos h0]
    exact ⟨by simp [h0'], fun _ => rfl, fun hne _ => absurd h0' hne,
      fun hne _ _ => absurd h0' hne⟩
  · have h0' : plan.steps ≠ [] := List.isEmpty_eq_false.mp (by simpa using h0)
    rw [if_neg h0]
    by_cases hc : hasCircularDependency plan.steps
    · rw [if_pos hc]
      exact ⟨by simp [h0', hc], fun he => absurd he h0', fun _ _ => rfl,
        fun _ hcf _ => absurd hc (by simp [hcf])⟩
    · rw [if_neg hc]
      have hcf : hasCircularDependency plan.steps = false := by simpa using hc
      refine ⟨?_, fun he => absurd he h0', fun _ hct => absurd hct (by simp [hcf]),
        fun _ _ hord => by simp [hord]⟩
      show (danglingErrors plan.steps).isEmpty = false ↔ _
      rw [List.isEmpty_eq_false, Ne, danglingErrors_eq_nil_iff]
      push_neg
      simp only [h0', hcf, false_or]
      constructor
      · rintro ⟨st, hst, d, hd, hnot⟩
        exact Or.inr ⟨st, hst, d, hd, hnot⟩
      · rintro (hfalse | ⟨st, hst, d, hd, hnot⟩)
        · cases hfalse
        · exact ⟨st, hst, d, hd, hnot⟩

/-- C9 witness: `C9_validator_rejects` applied to the two-step circular
plan of spec scenario S3. -/
theorem C9_validator_rejects_witness :
    (validatePlan cyclicPlan).valid = false ∧
    (validatePlan cyclicPlan).errors = ["Plan has circular step dependencies"] :=
  ⟨(C9_validator_rejects cyclicPlan).1.mpr (Or.inr (Or.inl rfl)),
   (C9_validator_rejects cyclicPlan).2.2.1 (List.cons_ne_nil _ _) rfl⟩

/-! ## C4 — order and cap of `get_history` -/

/-- C4 counterexample: with two matching messages published in the order
`msgOld`, `msgNew` and a large limit, `get_history` returns
`[msgOld, msgNew]` — chronological (oldest-first) order, not the claimed
newest-first order `[msgNew, msgOld]`: the collection loop scans
newest-first but the result is reversed before being returned. -/
theorem C4_counterexample :
    getHistory [msgOld, msgNew] none none none 100 = [msgOld, msgNew] ∧
    getHistory [msgOld, msgNew] none none none 100 ≠ [msgNew, msgOld] :=
  ⟨rfl, by decide⟩

theorem historyCollect_eq (p : Message → Bool) (limit : Int) :
    ∀ (l acc : List Message), (acc.length : Int) < limit →
      historyCollect p limit l acc = acc ++ (l.filter p).take (limit - acc.length).toNat := by
  intro l
  induction l with
  | nil => intro acc h; simp [historyCollect]
  | cons m ms ih =>
    intro acc h
    by_cases hp : p m
    · simp only [historyCollect, hp, if_true]
      by_cases hstop : limit ≤ ((acc ++ [m]).length : Int)
      · rw [if_pos hstop]
        have hlen : (limit - acc.length).toNat = 1 := by
          simp only [List.length_append, List.length_singleton] at hstop
          omega
        rw [List.filter_cons_of_pos hp, hlen, List.take_succ_cons, List.take_zero]
      · rw [if_neg hstop]
        have hlt : (((acc ++ [m]).length : Nat) : Int) < limit := by
          simp only [List.length_append, List.length_singleton] at hstop ⊢
          omega
        rw [ih _ hlt, List.filter_cons_of_pos hp]
        have h1 : (limit - acc.length).toNat = (limit - ((acc ++ [m]).length : Nat)).toNat + 1 := by
          simp only [List.length_append, List.length_singleton]
          omega
        rw [h1, List.take_succ_cons]
        simp
    · simp only [historyCollect, hp, Bool.false_eq_true, if_false]
      rw [ih _ h, List.filter_cons_of_neg (by simp [hp])]

/-- C4 amended: for every positive limit, `get_history` returns exactly
the newest `limit` matching messages but in chronological (oldest-first)
order — the reverse of the newest-first prefix of the filtered history —
so it is filter-correct and capped at `limit`, while the claimed
newest-first ordering is the reverse of what is returned. -/
theorem C4_history_order (history : List Message) (sender recipient : Option String)
    (mtype : Option MessageType) (limit : Int) (h : 1 ≤ limit) :
    getHistory history sender recipient mtype limit =
      ((history.filter (msgMatches sender recipient mtype)).reverse.take limit.toNat).reverse ∧
    (getHistory history sender recipient mtype limit).length ≤ limit.toNat ∧
    (∀ m ∈ getHistory history sender recipient mtype limit,
      msgMatches sender recipient mtype m = true) := by
  have hcoll := historyCollect_eq (msgMatches sender recipient mtype) limit history.reverse []
    (by simp only [List.length_nil, Int.natCast_zero]; omega)
  have heq : getHistory history sender recipient mtype limit =
      ((history.filter (msgMatches sender recipient mtype)).reverse.take limit.toNat).reverse := by
    unfold getHistory
    rw [hcoll]
    simp [List.filter_reverse]
  refine ⟨heq, ?_, ?_⟩
  · rw [heq, List.length_reverse]
    exact List.length_take_le limit.toNat
      (history.filter (msgMatches sender recipient mtype)).reverse
  · intro m hm
    rw [heq, List.mem_reverse] at hm
    have h2 := List.mem_of_mem_take hm
    rw [List.mem_reverse] at h2
    exact (List.mem_filter.mp h2).2

/-- C4 witness: `C4_history_order` at limit 1 over a two-message history:
the single newest message is returned. -/
theorem C4_history_order_witness :
    getHistory [msgOld, msgNew] none none none 1 = [msgNew] := by
  have h := (C4_history_order [msgOld, msgNew] none none none 1 (by decide)).1
  rw [h]
  rfl

/-! ## C5 — `request_response` and its own waiter -/

/-- C5: the code evaluated at the claim's failing input (spec scenario S6:
no subscribed handler replies during routing).  `request_response` sets
`correlation_id := message.id` and registers the waiter under that key
*before* publishing; routing the request then finds the request's own
`correlation_id` among the pending waiters, resolves the future with the
request itself and marks it COMPLETED.  The call therefore returns
immediately with the request message — the documented
`asyncio.TimeoutError` at the deadline can never be raised, for any bus
state and any request. -/
theorem C5_request_satisfies_own_waiter (st : BusState) (m : Message) :
    (requestResponse st m []).2 =
      RROutcome.response
        { m with correlation_id := some m.id, status := MessageStatus.completed } := by
  have hmem : m.id ∈ st.pending ++ [m.id] :=
    List.mem_append_right _ (List.mem_singleton.mpr rfl)
  simp only [requestResponse, List.foldl_nil, matchPending, if_pos hmem]
  rw [List.drop_left]
  simp

/-! ## C8 — a due reminder fires exactly once -/

/-- Branch equation: a reminder already in the session set, or inactive,
or with an unparseable time, or not yet due, is passed through untouched
and the tick continues with the rest. -/
theorem checkReminders_skip (ch : Nat → List Bool) (now : Int) (fired : List Nat)
    (r : Reminder) (rest : List Reminder)
    (h : r.id ∈ fired ∨ r.is_active = false ∨ r.scheduled_time = none ∨
      ∃ s, r.scheduled_time = some s ∧ ¬ s ≤ now) :
    checkReminders ch fired now (r :: rest) =
      { checkReminders ch fired now rest with
        reminders := r :: (checkReminders ch fired now rest).reminders } := by
  by_cases hf : r.id ∈ fired
  · simp only [checkReminders, if_pos hf]
  · by_cases ha : r.is_active = true
    · rcases h with h | h | h | ⟨s, hs, hn⟩
      · exact absurd h hf
      · rw [ha] at h; cases h
      · simp only [checkReminders, if_neg hf, ha, not_true_eq_false, if_false, h]
      · simp only [checkReminders, if_neg hf, ha, not_true_eq_false, if_false, hs, if_neg hn]
    · simp only [checkReminders, if_neg hf, if_pos ha]

/-- Branch equation: a not-yet-fired, active, parseable, due reminder is
notified, added to the session set, flipped inactive, and contributes a
warning exactly when no channel succeeded. -/
theorem checkReminders_fire (ch : Nat → List Bool) (now : Int) (fired : List Nat)
    (r : Reminder) (rest : List Reminder) (s : Int)
    (hf : r.id ∉ fired) (ha : r.is_active = true) (hs : r.scheduled_time = some s)
    (hd : s ≤ now) :
    checkReminders ch fired now (r :: rest) =
      { fired := (checkReminders ch (fired ++ [r.id]) now rest).fired
        reminders := { r with is_active := false } ::
          (checkReminders ch (fired ++ [r.id]) now rest).reminders
        notified := r.id :: (checkReminders ch (fired ++ [r.id]) now rest).notified
        warned := (if (ch r.id).any (fun b => b) then [] else [r.id]) ++
          (checkReminders ch (fired ++ [r.id]) now rest).warned } := by
  simp only [checkReminders, if_neg hf, ha, not_true_eq_false, if_false, hs, if_pos hd]

theorem checkReminders_fired_mono (ch : Nat → List Bool) (now : Int) :
    ∀ (l : List Reminder) (fired : List Nat), fired ⊆ (checkReminders ch fired now l).fired := by
  intro l
  induction l with
  | nil => intro fired x hx; exact hx
  | cons r rest ih =>
    intro fired
    by_cases hf : r.id ∈ fired
    · rw [checkReminders_skip ch now fired r rest (Or.inl hf)]; exact ih fired
    · by_cases ha : r.is_active = true
      · cases hs : r.scheduled_time with
        | none =>
          rw [checkReminders_skip ch now fired r rest (Or.inr (Or.inr (Or.inl hs)))]
          exact ih fired
        | some s =>
          by_cases hd : s ≤ now
          · rw [checkReminders_fire ch now fired r rest s hf ha hs hd]
            exact (List.subset_append_left _ _).trans (ih (fired ++ [r.id]))
          · rw [checkReminders_skip ch now fired r rest (Or.inr (Or.inr (Or.inr ⟨s, hs, hd⟩)))]
            exact ih fired
      · rw [checkReminders_skip ch now fired r rest
          (Or.inr (Or.inl (by revert ha; cases r.is_active <;> simp)))]
        exact ih fired

theorem checkReminders_notified_disjoint (ch : Nat → List Bool) (now : Int) :
    ∀ (l : List Reminder) (fired : List Nat) (x : Nat), x ∈ fired →
      x ∉ (checkReminders ch fired now l).notified := by
  intro l
  induction l with
  | nil => intro fired x hx h; cases h
  | cons r rest ih =>
    intro fired x hx
    by_cases hf : r.id ∈ fired
    · rw [checkReminders_skip ch now fired r rest (Or.inl hf)]; exact ih fired x hx
    · by_cases ha : r.is_active = true
      · cases hs : r.scheduled_time with
        | none =>
          rw [checkReminders_skip ch now fired r rest (Or.inr (Or.inr (Or.inl hs)))]
          exact ih fired x hx
        | some s =>
          by_cases hd : s ≤ now
          · rw [checkReminders_fire ch now fired r rest s hf ha hs hd]
            intro hmemn
            rcases List.mem_cons.mp hmemn with heq | hmemn'
            · exact hf (heq ▸ hx)
            · exact ih (fired ++ [r.id]) x (List.mem_append_left _ hx) hmemn'
          · rw [checkReminders_skip ch now fired r rest (Or.inr (Or.inr (Or.inr ⟨s, hs, hd⟩)))]
            exact ih fired x hx
      · rw [checkReminders_skip ch now fired r rest
          (Or.inr (Or.inl (by revert ha; cases r.is_active <;> simp)))]
        exact ih fired x hx

theorem checkReminders_ids (ch : Nat → List Bool) (now : Int) :
    ∀ (l : List Reminder) (fired : List Nat),
      ((checkReminders ch fired now l).reminders.map fun r => r.id) =
        l.map fun r => r.id := by
  intro l
  induction l with
  | nil => intro fired; rfl
  | cons r rest ih =>
    intro fired
    by_cases hf : r.id ∈ fired
    · rw [checkReminders_skip ch now fired r rest (Or.inl hf)]
      simp only [List.map_cons, ih fired]
    · by_cases ha : r.is_active = true
      · cases hs : r.scheduled_time with
        | none =>
          rw [checkReminders_skip ch now fired r rest (Or.inr (Or.inr (Or.inl hs)))]
          simp only [List.map_cons, ih fired]
        | some s =>
          by_cases hd : s ≤ now
          · rw [checkReminders_fire ch now fired r rest s hf ha hs hd]
            simp only [List.map_cons, ih (fired ++ [r.id])]
          · rw [checkReminders_skip ch now fired r rest (Or.inr (Or.inr (Or.inr ⟨s, hs, hd⟩)))]
            simp only [List.map_cons, ih fired]
      · rw [checkReminders_skip ch now fired r rest
          (Or.inr (Or.inl (by revert ha; cases r.is_active <;> simp)))]
        simp only [List.map_cons, ih fired]

/-- C8: at a tick on which an active reminder with a parseable scheduled
time is due and has not yet fired in this session, the tick adds its id to
the in-session set, notifies it, flips it inactive in the persisted list,
and — when no notification channel succeeded — still records only the
warning while flipping it; and any reminder whose id is in the session set
is never notified by a later tick of this process. -/
theorem C8_due_reminder_fires_once (ch : Nat → List Bool) (now t0 : Int) (r : Reminder)
    (hactive : r.is_active = true) (hsched : r.scheduled_time = some t0) (hdue : t0 ≤ now) :
    ∀ (l : List Reminder) (fired : List Nat), r ∈ l → (l.map fun x => x.id).Nodup →
      r.id ∉ fired →
      (r.id ∈ (checkReminders ch fired now l).fired ∧
       r.id ∈ (checkReminders ch fired now l).notified ∧
       (∀ r' ∈ (checkReminders ch fired now l).reminders, r'.id = r.id →
         r'.is_active = false) ∧
       ((ch r.id).any (fun b => b) = false → r.id ∈ (checkReminders ch fired now l).warned) ∧
       (∀ ch2 fired2 l2 now2, r.id ∈ fired2 →
         r.id ∉ (checkReminders ch2 fired2 now2 l2).notified)) := by
  intro l
  induction l with
  | nil => intro fired hmem; cases hmem
  | cons a rest ih =>
    intro fired hmem hnodup hnew
    have hnodup' : (rest.map fun x => x.id).Nodup := (List.nodup_cons.mp hnodup).2
    have hanotin : a.id ∉ rest.map fun x => x.id := (List.nodup_cons.mp hnodup).1
    rcases List.mem_cons.mp hmem with rfl | hmem'
    · -- the reminder under scrutiny is the head and fires here
      rw [checkReminders_fire ch now fired r rest t0 hnew hactive hsched hdue]
      refine ⟨?_, List.mem_cons_self _ _, ?_, ?_, ?_⟩
      · exact checkReminders_fired_mono ch now rest (fired ++ [r.id])
          (List.mem_append_right _ (List.mem_singleton.mpr rfl))
      · intro r' hr' hid
        rcases List.mem_cons.mp hr' with rfl | hr''
        · rfl
        · exfalso
          have hids := checkReminders_ids ch now rest (fired ++ [r.id])
          have hin : r'.id ∈ rest.map fun x => x.id := by
            rw [← hids]; exact List.mem_map_of_mem _ hr''
          rw [hid] at hin
          exact hanotin hin
      · intro hch
        rw [if_neg (by simp [hch])]
        exact List.mem_append_left _ (List.mem_singleton.mpr rfl)
      · intro ch2 fired2 l2 now2 hf2
        exact checkReminders_notified_disjoint ch2 now2 l2 fired2 r.id hf2
    · -- the reminder under scrutiny sits further down the list
      have hidne : r.id ≠ a.id :=
        fun he => hanotin (he ▸ List.mem_map_of_mem (fun x => x.id) hmem')
      have tailStep : ∀ fired', r.id ∉ fired' →
          (r.id ∈ (checkReminders ch fired' now rest).fired ∧
           r.id ∈ (checkReminders ch fired' now rest).notified ∧
           (∀ r' ∈ (checkReminders ch fired' now rest).reminders, r'.id = r.id →
             r'.is_active = false) ∧
           ((ch r.id).any (fun b => b) = false →
             r.id ∈ (checkReminders ch fired' now rest).warned) ∧
           (∀ ch2 fired2 l2 now2, r.id ∈ fired2 →
             r.id ∉ (checkReminders ch2 fired2 now2 l2).notified)) :=
        fun fired' hnew' => ih fired' hmem' hnodup' hnew'
      by_cases hf : a.id ∈ fired
      · rw [checkReminders_skip ch now fired a rest (Or.inl hf)]
        obtain ⟨c1, c2, c3, c4, c5⟩ := tailStep fired hnew
        refine ⟨c1, c2, ?_, c4, c5⟩
        intro r' hr' hid
        rcases List.mem_cons.mp hr' with rfl | hr''
        · exact absurd hid (by exact fun he => hidne he.symm)
        · exact c3 r' hr'' hid
      · by_cases ha : a.is_active = true
        · cases hs : a.scheduled_time with
          | none =>
            rw [checkReminders_skip ch now fired a rest (Or.inr (Or.inr (Or.inl hs)))]
            obtain ⟨c1, c2, c3, c4, c5⟩ := tailStep fired hnew
            refine ⟨c1, c2, ?_, c4, c5⟩
            intro r' hr' hid
            rcases List.mem_cons.mp hr' with rfl | hr''
            · exact absurd hid (by exact fun he => hidne he.symm)
            · exact c3 r' hr'' hid
          | some s =>
            by_cases hd : s ≤ now
            · rw [checkReminders_fire ch now fired a rest s hf ha hs hd]
              have hnew' : r.id ∉ fired ++ [a.id] := by
                intro hin
                rcases List.mem_append.mp hin with hin' | hin'
                · exact hnew hin'
                · exact hidne (List.mem_singleton.mp hin')
              obtain ⟨c1, c2, c3, c4, c5⟩ := tailStep (fired ++ [a.id]) hnew'
              refine ⟨c1, List.mem_cons_of_mem _ c2, ?_, ?_, c5⟩
              · intro r' hr' hid
                rcases List.mem_cons.mp hr' with rfl | hr''
                · rfl
                · exact c3 r' hr'' hid
              · intro hch
                exact List.mem_append_right _ (c4 hch)
            · rw [checkReminders_skip ch now fired a rest
                (Or.inr (Or.inr (Or.inr ⟨s, hs, hd⟩)))]
              obtain ⟨c1, c2, c3, c4, c5⟩ := tailStep fired hnew
              refine ⟨c1, c2, ?_, c4, c5⟩
              intro r' hr' hid
              rcases List.mem_cons.mp hr' with rfl | hr''
              · exact absurd hid (by exact fun he => hidne he.symm)
              · exact c3 r' hr'' hid
        · rw [checkReminders_skip ch now fired a rest
            (Or.inr (Or.inl (by revert ha; cases a.is_active <;> simp)))]
          obtain ⟨c1, c2, c3, c4, c5⟩ := tailStep fired hnew
          refine ⟨c1, c2, ?_, c4, c5⟩
          intro r' hr' hid
          rcases List.mem_cons.mp hr' with rfl | hr''
          · exact absurd hid (by exact fun he => hidne he.symm)
          · exact c3 r' hr'' hid

/-- C8 witness: `C8_due_reminder_fires_once` applied to a single overdue
reminder with every notification channel failing; the reminder still fires
(with the warning), flips, and is not re-notified by a later tick. -/
theorem C8_due_reminder_fires_once_witness :
    5 ∈ (checkReminders (fun _ => [false, false, false]) [] 20 [remEx]).fired ∧
    5 ∈ (checkReminders (fun _ => [false, false, false]) [] 20 [remEx]).notified ∧
    5 ∈ (checkReminders (fun _ => [false, false, false]) [] 20 [remEx]).warned ∧
    5 ∉ (checkReminders (fun _ => [false, false, false]) [5] 99 [remEx]).notified := by
  have h := C8_due_reminder_fires_once (fun _ => [false, false, false]) 20 10 remEx rfl rfl
    (by decide) [remEx] [] (List.mem_singleton.mpr rfl) (by decide) (by decide)
  exact ⟨h.1, h.2.1, h.2.2.2.1 rfl,
    h.2.2.2.2 (fun _ => [false, false, false]) [5] [remEx] 99 (List.mem_singleton.mpr rfl)⟩


end AgenticOS
